import Mathlib

/-
Verification of the discovery & classification engine of
`opencolorio_config_aces` (file
`src/opencolorio_config_aces/config/reference/discover/classify.py`).

Python strings are modelled as lists of characters (`PyStr`), so that every
operation is executable by the kernel.  `str.split(sep)`, `str.replace(a, b)`,
`a in s`, `s.startswith(p)` and `s.endswith(p)` (for non-empty separators and
patterns, the only uses in the source) are modelled by the structurally
recursive functions below, which perform leftmost non-overlapping matching
exactly as Python does.  Python dictionaries are modelled as insertion-ordered
association lists with unique keys: updating an existing key rewrites its
value in place, a new key is appended at the end, matching `dict` semantics.
-/

abbrev PyStr := List Char

/-- Python prefix test: returns the rest of `s` when `p` is a prefix. -/
def stripPre : PyStr → PyStr → Option PyStr
  | [], s => some s
  | _ :: _, [] => none
  | c :: cs, d :: ds => if c = d then stripPre cs ds else none

/-- `s.startswith(p)` for Python strings. -/
def pyStartsWith (s p : PyStr) : Bool := (stripPre p s).isSome

/-- `s.endswith(p)` for Python strings. -/
def pyEndsWith (s p : PyStr) : Bool := pyStartsWith s.reverse p.reverse

/-- Worker for `pySplit`; the fuel is the length of the string, each step
consumes at least one character. -/
def pySplitGo (sep : PyStr) : Nat → PyStr → PyStr → List PyStr
  | 0, s, acc => [acc.reverse ++ s]
  | _ + 1, [], acc => [acc.reverse]
  | fuel + 1, c :: rest, acc =>
    match stripPre sep (c :: rest) with
    | some r => acc.reverse :: pySplitGo sep fuel r []
    | none => pySplitGo sep fuel rest (c :: acc)

/-- Python `s.split(sep)` for a non-empty separator: splits on every leftmost
non-overlapping occurrence; always returns at least one piece. -/
def pySplit (s sep : PyStr) : List PyStr :=
  pySplitGo sep s.length s []

/-- Python `sep.join(pieces)`. -/
def pyJoin (sep : PyStr) : List PyStr → PyStr
  | [] => []
  | [x] => x
  | x :: y :: xs => x ++ sep ++ pyJoin sep (y :: xs)

/-- Python `s.replace(pat, rep)` for a non-empty pattern: every leftmost
non-overlapping occurrence is replaced. -/
def pyReplace (s pat rep : PyStr) : PyStr := pyJoin rep (pySplit s pat)

/-- Python `pat in s` (substring containment) for a non-empty pattern. -/
def pyContains (s pat : PyStr) : Bool := 1 < (pySplit s pat).length

/-- Python dictionary lookup on an insertion-ordered association list. -/
def getEntry {β : Type} : List (PyStr × β) → PyStr → Option β
  | [], _ => none
  | e :: es, k => if e.1 = k then some e.2 else getEntry es k

/-- Python code-point comparison of strings, as used by `sorted`. -/
def pyStrLe : PyStr → PyStr → Bool
  | [], _ => true
  | _ :: _, [] => false
  | a :: as, b :: bs => if a = b then pyStrLe as bs else decide (a.toNat < b.toNat)

def insSorted (x : PyStr) : List PyStr → List PyStr
  | [] => [x]
  | y :: ys => if pyStrLe x y then x :: y :: ys else y :: insSorted x ys

/-- Ascending stable sort by code-point order, modelling Python `sorted`. -/
def pySortStrs : List PyStr → List PyStr
  | [] => []
  | x :: xs => insSorted x (pySortStrs xs)

/-- Deduplication; the output order is irrelevant because the source always
sorts the result of the set comprehension it models. -/
def pyDedup : List PyStr → List PyStr
  | [] => []
  | x :: xs => if x ∈ xs then pyDedup xs else x :: pyDedup xs

/-!  Constants of `classify.py`. -/

def URN_CTL : PyStr := "urn:ampas:aces:transformId:v2.0".toList

def SEPARATOR_URN_CTL : PyStr := ":".toList

def SEPARATOR_ID_CTL : PyStr := ".".toList

def EXTENSION_CTL : PyStr := ".ctl".toList

def TRANSFORM_TYPES_CTL : List PyStr :=
  ["CSC".toList, "Lib".toList, "Look".toList, "InvLook".toList,
   "Output".toList, "InvOutput".toList]

def TRANSFORM_FAMILIES_CTL : List (PyStr × PyStr) :=
  [("aces-core".toList, "lib".toList),
   ("aces-input-and-colorspaces".toList, "csc".toList),
   ("aces-look".toList, "look".toList),
   ("aces-output".toList, "output".toList)]

def VALUE_DEFAULT_UNDEFINED : PyStr := "undefined".toList

/-- `patch_invalid_aces_transform_id` (classify.py lines 210-253).  Note that
every branch tests and rewrites `invalid_id`, the value bound at entry, so a
later branch discards the replacement performed by an earlier one. -/
def patch_invalid_aces_transform_id (aces_transform_id : PyStr) : PyStr :=
  let invalid_id := aces_transform_id
  let s1 := if pyContains invalid_id "transformID".toList then
    pyReplace invalid_id "transformID".toList "transformId".toList
    else aces_transform_id
  let s2 := if pyContains invalid_id "LogCv3".toList then
    pyReplace invalid_id "LogCv3".toList "LogC3".toList
    else s1
  let s3 := if pyContains invalid_id "LogCv4".toList then
    pyReplace invalid_id "LogCv4".toList "LogC4".toList
    else s2
  s3

/-- The fields of a parsed `ACESTransformID` (classify.py lines 330-628).
`namespace` is a Lean keyword, hence the trailing underscore. -/
structure ACESTransformID where
  aces_transform_id : PyStr
  urn : PyStr
  type : PyStr
  namespace_ : PyStr
  name : PyStr
  major_version : PyStr
  minor_version : PyStr
  patch_version : PyStr
  source : PyStr
  target : PyStr
deriving DecidableEq

/-- `ACESTransformID.__init__` default field state: every field starts as the
`undefined` sentinel. -/
def acesTransformIdUndefined (s : PyStr) : ACESTransformID :=
  { aces_transform_id := s
    urn := VALUE_DEFAULT_UNDEFINED
    type := VALUE_DEFAULT_UNDEFINED
    namespace_ := VALUE_DEFAULT_UNDEFINED
    name := VALUE_DEFAULT_UNDEFINED
    major_version := VALUE_DEFAULT_UNDEFINED
    minor_version := VALUE_DEFAULT_UNDEFINED
    patch_version := VALUE_DEFAULT_UNDEFINED
    source := VALUE_DEFAULT_UNDEFINED
    target := VALUE_DEFAULT_UNDEFINED }

/-- Failures of `ACESTransformID._parse`: the three `attest` calls raise with
a message (modelled as `malformedIdentifier`), while a failing tuple
unpacking of `rsplit` / `split` raises a `ValueError`. -/
inductive ParseFailure where
  | malformedIdentifier (message : PyStr)
  | valueError
deriving DecidableEq

/-- `ACESTransformID.__init__` followed by `_parse` (classify.py lines
360-373 and 573-627).  Mirrors the source statement by statement: the early
return on the `undefined` sentinel, the compatibility patch, `rsplit` on the
last `:`, the dot tokenization, the three `attest` checks in order, and the
per-type source/target computation (the `ACES` token is rewritten to
`ACES2065-1` only inside the `CSC` branch; the `Lib` type leaves source and
target as the `undefined` sentinel, as does the early return). -/
def aces_transform_id_parse (s : PyStr) : Except ParseFailure ACESTransformID :=
  if s = VALUE_DEFAULT_UNDEFINED then .ok (acesTransformIdUndefined s)
  else
    let patched := patch_invalid_aces_transform_id s
    let parts := pySplit patched SEPARATOR_URN_CTL
    if parts.length < 2 then .error .valueError
    else
      let urn := pyJoin SEPARATOR_URN_CTL parts.dropLast
      let idPart := parts.getLastD []
      let tokens := pySplit idPart SEPARATOR_ID_CTL
      let ty := tokens.headD []
      let components := tokens.tail
      if urn ≠ URN_CTL then
        .error (.malformedIdentifier (s ++ " URN is invalid!".toList))
      else if components.length ≠ 4 then
        .error (.malformedIdentifier (s ++ " is an invalid ACEStransformID!".toList))
      else
        let base : ACESTransformID :=
          { aces_transform_id := s
            urn := urn
            type := ty
            namespace_ := components.getD 0 []
            name := components.getD 1 []
            major_version := components.getD 2 []
            minor_version := components.getD 3 []
            patch_version := VALUE_DEFAULT_UNDEFINED
            source := VALUE_DEFAULT_UNDEFINED
            target := VALUE_DEFAULT_UNDEFINED }
        if ty ∉ TRANSFORM_TYPES_CTL then
          .error (.malformedIdentifier (s ++ " type is invalid!".toList))
        else if ty = "CSC".toList then
          if pyContains base.name "Unity".toList then
            .ok { base with source := "ACES2065-1".toList, target := "ACES2065-1".toList }
          else
            match pySplit base.name "_to_".toList with
            | [src, tgt] =>
              .ok { base with
                source := if src = "ACES".toList then "ACES2065-1".toList else src
                target := if tgt = "ACES".toList then "ACES2065-1".toList else tgt }
            | _ => .error .valueError
        else if ty = "Look".toList ∨ ty = "InvLook".toList then
          .ok { base with source := "ACES2065-1".toList, target := "ACES2065-1".toList }
        else if ty = "Output".toList then
          .ok { base with source := "ACES2065-1".toList, target := base.name }
        else if ty = "InvOutput".toList then
          .ok { base with source := base.name, target := "ACES2065-1".toList }
        else
          .ok base

/-- The URN segment of an identifier string: everything before the last `:`
separator, as computed by `rsplit(SEPARATOR_URN_CTL, 1)`. -/
def urnSegment (s : PyStr) : PyStr :=
  pyJoin SEPARATOR_URN_CTL (pySplit s SEPARATOR_URN_CTL).dropLast

deriving instance DecidableEq for Except

/-- An identifier containing both the mistyped URN keyword `transformID` and
the legacy curve name `LogCv3` (both of which the shim exists to repair). -/
def doublyInvalidId : PyStr :=
  "urn:ampas:aces:transformID:v2.0:CSC.ARRI.LogCv3_to_ACES.a2.v1".toList

/-!  `find_ctl_transform_pairs` (classify.py lines 1102-1148). -/

/-- `os.path.basename` on a POSIX path: the part after the last separator. -/
def os_path_basename (p : PyStr) : PyStr := (pySplit p "/".toList).getLastD []

/-- The root part of `os.path.splitext`: the extension starts at the last dot,
except that a name whose characters before the last dot are all dots (a
dotfile such as `.ctl`) has no extension. -/
def os_path_splitext_root (b : PyStr) : PyStr :=
  let parts := pySplit b ".".toList
  if 2 ≤ parts.length ∧ parts.dropLast.any (fun q => q ≠ []) then
    pyJoin ".".toList parts.dropLast
  else b

/-- The basename normalization and direction flag of
`find_ctl_transform_pairs` for one path (lines 1126-1137): the stem of the
filename; a stem starting with `Inv` has every `Inv` occurrence removed and
is not forward; a stem matching the regex `.*_to_ACES$` (which tolerates one
trailing newline) has every `_to_ACES` occurrence removed and is not forward;
every `ACES_to_` occurrence is removed unconditionally. -/
def pair_basename_direction (ctl_transform : PyStr) : PyStr × Bool :=
  let b0 := os_path_splitext_root (os_path_basename ctl_transform)
  let s1 := if pyStartsWith b0 "Inv".toList then
      (pyReplace b0 "Inv".toList [], false)
    else (b0, true)
  let s2 := if pyEndsWith s1.1 "_to_ACES".toList ∨ pyEndsWith s1.1 "_to_ACES\n".toList then
      (pyReplace s1.1 "_to_ACES".toList [], false)
    else s1
  (pyReplace s2.1 "ACES_to_".toList [], s2.2)

/-- The per-basename slots of `find_ctl_transform_pairs`: the Python inner
dict with optional keys `forward_transform` and `inverse_transform`. -/
structure CTLTransformPairPaths where
  forward_path : Option PyStr
  inverse_path : Option PyStr
deriving DecidableEq

def setSlotVal (slots : CTLTransformPairPaths) (is_forward : Bool) (p : PyStr) :
    CTLTransformPairPaths :=
  if is_forward then { slots with forward_path := some p }
  else { slots with inverse_path := some p }

/-- Insertion into the `defaultdict(dict)`: an existing basename entry has
one slot overwritten in place, a new basename is appended at the end. -/
def upsertSlot : List (PyStr × CTLTransformPairPaths) → PyStr → Bool → PyStr →
    List (PyStr × CTLTransformPairPaths)
  | [], k, f, p => [(k, setSlotVal ⟨none, none⟩ f p)]
  | e :: es, k, f, p =>
    if e.1 = k then (e.1, setSlotVal e.2 f p) :: es else e :: upsertSlot es k f p

/-- `find_ctl_transform_pairs` (classify.py lines 1102-1148). -/
def find_ctl_transform_pairs (ctl_transforms : List PyStr) :
    List (PyStr × CTLTransformPairPaths) :=
  ctl_transforms.foldl
    (fun d p =>
      let bd := pair_basename_direction p
      upsertSlot d bd.1 bd.2 p)
    []

/-- The slot of key `k` and direction `f` in a pair index. -/
def getSlot (d : List (PyStr × CTLTransformPairPaths)) (k : PyStr) (f : Bool) :
    Option PyStr :=
  match getEntry d k with
  | none => none
  | some s => if f then s.forward_path else s.inverse_path

def slotCount (slots : CTLTransformPairPaths) : Nat :=
  (if slots.forward_path.isSome then 1 else 0) +
    (if slots.inverse_path.isSome then 1 else 0)

def totalSlotCount (d : List (PyStr × CTLTransformPairPaths)) : Nat :=
  (d.map (fun e => slotCount e.2)).sum

/-!  `classify_aces_ctl_transforms` / `unclassify_ctl_transforms`
(classify.py lines 1209-1342). -/

/-- Longest common prefix of two segment lists. -/
def commonPre : List PyStr → List PyStr → List PyStr
  | a :: as, b :: bs => if a = b then a :: commonPre as bs else []
  | _, _ => []

/-- Modelled from the spec: `paths_common_ancestor` is defined in
`opencolorio_config_aces/utilities` which is not among the sources; the spec
says `classify` "computes the common ancestor directory of all discovered
paths".  Modelled as the `/`-joined longest common prefix of the
`/`-separated segments of the paths. -/
def paths_common_ancestor (paths : List PyStr) : PyStr :=
  match paths.map (fun p => pySplit p "/".toList) with
  | [] => []
  | s :: ss => pyJoin "/".toList (ss.foldl commonPre s)

/-- Family and genus of one discovered directory (classify.py lines
1262-1269): the directory is made relative to the common ancestor, split on
the separator, every segment is substituted through
`TRANSFORM_FAMILIES_CTL.get(part, part)`; the first mapped segment is the
family and the remaining mapped segments joined with `/` are the genus, or
the `undefined` sentinel when there are none. -/
def classify_family_genus (root_directory directory : PyStr) : PyStr × PyStr :=
  let sub_directory := pyReplace directory (root_directory ++ "/".toList) []
  let mapped := (pySplit sub_directory "/".toList).map
    (fun part => (getEntry TRANSFORM_FAMILIES_CTL part).getD part)
  (mapped.headD VALUE_DEFAULT_UNDEFINED,
    if mapped.tail = [] then VALUE_DEFAULT_UNDEFINED
    else pyJoin "/".toList mapped.tail)

/-- The projection of the Python `CTLTransform` class relevant to
classification: its path (already absolute and normalized in the discovery
output, so `os.path.abspath(os.path.normpath(...))` is the identity) and the
family and genus it is classified under.  The remaining fields of the class
(`code`, `aces_transform_id`, `user_name`, `description`, `siblings`) are
read from the transform file contents and play no role in the claims proved
here. -/
structure CTLTransform where
  path : PyStr
  family : PyStr
  genus : PyStr
deriving DecidableEq

/-- `CTLTransformPair` (classify.py lines 962-1099). -/
structure CTLTransformPair where
  forward_transform : CTLTransform
  inverse_transform : CTLTransform
deriving DecidableEq

/-- A value of the innermost taxonomy mapping: a single transform or a
forward/inverse pair. -/
inductive ClassifiedEntry where
  | single : CTLTransform → ClassifiedEntry
  | pair : CTLTransformPair → ClassifiedEntry
deriving DecidableEq

abbrev Taxonomy := List (PyStr × List (PyStr × List (PyStr × ClassifiedEntry)))

/-- Python dict update on an association list: update the value of an
existing key in place, or append a new key at the end. -/
def upsertWith {β : Type} (upd : β → β) (dflt : β) :
    List (PyStr × β) → PyStr → List (PyStr × β)
  | [], k => [(k, upd dflt)]
  | e :: es, k => if e.1 = k then (e.1, upd e.2) :: es else e :: upsertWith upd dflt es k

/-- `classified_ctl_transforms[family][genus][basename] = entry` on the
vivified nested dictionary. -/
def taxonomyInsert (tax : Taxonomy) (family genus basename : PyStr)
    (e : ClassifiedEntry) : Taxonomy :=
  upsertWith
    (fun gm => upsertWith
      (fun em => upsertWith (fun _ => e) e em basename) [] gm genus)
    [] tax family

/-- Nested lookup `tax[family][genus][basename]`. -/
def taxonomyGet (tax : Taxonomy) (family genus basename : PyStr) :
    Option ClassifiedEntry :=
  match getEntry tax family with
  | none => none
  | some gm =>
    match getEntry gm genus with
    | none => none
    | some em => getEntry em basename

/-- The classification of one basename group (classify.py lines 1271-1296):
one filled slot yields a single `CTLTransform`, two filled slots yield a
`CTLTransformPair` (the mutual `siblings` push is a back-reference between
the two records and does not affect the taxonomy); an empty group inserts
nothing. -/
def classifyEntryOf (family genus : PyStr) (slots : CTLTransformPairPaths) :
    Option ClassifiedEntry :=
  match slots.forward_path, slots.inverse_path with
  | some f, none => some (.single ⟨f, family, genus⟩)
  | none, some i => some (.single ⟨i, family, genus⟩)
  | some f, some i => some (.pair ⟨⟨f, family, genus⟩, ⟨i, family, genus⟩⟩)
  | none, none => none

/-- Classification of the basename groups of one discovered directory. -/
def classifyDirStep (root : PyStr) (tax : Taxonomy) (de : PyStr × List PyStr) :
    Taxonomy :=
  let fg := classify_family_genus root de.1
  (find_ctl_transform_pairs de.2).foldl
    (fun t bs =>
      match classifyEntryOf fg.1 fg.2 bs.2 with
      | some e => taxonomyInsert t fg.1 fg.2 bs.1 e
      | none => t)
    tax

/-- `classify_aces_ctl_transforms` (classify.py lines 1209-1298). -/
def classify_aces_ctl_transforms (discovered : List (PyStr × List PyStr)) :
    Taxonomy :=
  discovered.foldl
    (classifyDirStep (paths_common_ancestor ((discovered.map Prod.snd).flatten)))
    []

/-- The transforms contributed by one taxonomy value: a pair is expanded
into its forward and inverse members, in that order. -/
def entryTransforms : ClassifiedEntry → List CTLTransform
  | .single t => [t]
  | .pair p => [p.forward_transform, p.inverse_transform]

/-- `unclassify_ctl_transforms` (classify.py lines 1301-1342). -/
def unclassify_ctl_transforms (tax : Taxonomy) : List CTLTransform :=
  (tax.map (fun fe =>
    (fe.2.map (fun ge =>
      (ge.2.map (fun be => entryTransforms be.2)).flatten)).flatten)).flatten

/-!  `filter_ctl_transforms` (classify.py lines 1345-1402). -/

/-- The default exclusion filterer `_exclusion_filterer_ARRIIDT` (classify.py
lines 153-179). -/
def exclusion_filterer_ARRIIDT (ctl_transform : CTLTransform) : Bool :=
  if ¬ pyContains ctl_transform.path "Alexa".toList then true
  else if pyContains ctl_transform.path "Alexa-v3-logC".toList then true
  else false

def TRANSFORM_FILTERERS_DEFAULT_CTL : List (CTLTransform → Bool) :=
  [exclusion_filterer_ARRIIDT]

/-- `filter_ctl_transforms` (classify.py lines 1345-1402): a taxonomy input
is first flattened through `unclassify_ctl_transforms`; a transform is kept
when every filterer returns true (the source multiplies the boolean
results). -/
def filter_ctl_transforms (ctl_transforms : Taxonomy ⊕ List CTLTransform)
    (filterers : List (CTLTransform → Bool)) : List CTLTransform :=
  let flat := match ctl_transforms with
    | .inl tax => unclassify_ctl_transforms tax
    | .inr ts => ts
  flat.filter (fun t => filterers.all (fun f => f t))

/-!  `generate_amf_components` (classify.py lines 1462-1516). -/

/-- One entry of the `transforms` arrays of the JSON corpus. -/
structure AMFTransform where
  transformId : PyStr
  inverseTransformId : Option PyStr
  previousEquivalentTransformIds : List PyStr
deriving DecidableEq

/-- The JSON corpus `transformsData` mapping: version keys to transform
lists. -/
abbrev AMFCorpus := List (PyStr × List AMFTransform)

/-- `defaultdict(list)` accumulation: `d[k].append/extend(vs)`; a missing
key starts from the empty list. -/
def dictAppend : List (PyStr × List PyStr) → PyStr → List PyStr →
    List (PyStr × List PyStr)
  | [], k, vs => [(k, vs)]
  | e :: es, k, vs => if e.1 = k then (e.1, e.2 ++ vs) :: es else e :: dictAppend es k vs

/-- The accumulation performed for one transform entry (classify.py lines
1491-1510). -/
def amfStep (include_previous_transform_ids : Bool)
    (d : List (PyStr × List PyStr)) (t : AMFTransform) :
    List (PyStr × List PyStr) :=
  let d1 := dictAppend d t.transformId [t.transformId]
  let d2 := if include_previous_transform_ids then
      dictAppend d1 t.transformId t.previousEquivalentTransformIds
    else d1
  match t.inverseTransformId with
  | none => d2
  | some inverse_transform_id =>
    let d3 := dictAppend d2 inverse_transform_id [inverse_transform_id]
    let d4 := dictAppend d3 inverse_transform_id [t.transformId]
    let d5 := dictAppend d4 t.transformId [inverse_transform_id]
    if include_previous_transform_ids then
      dictAppend d5 inverse_transform_id t.previousEquivalentTransformIds
    else d5

/-- `sorted({transform_id for transform_id in transform_ids if transform_id})`:
drop empty strings, deduplicate, sort ascending. -/
def pySortedIdSet (vs : List PyStr) : List PyStr :=
  pySortStrs (pyDedup (vs.filter (fun v => v ≠ [])))

/-- The final dict comprehension of `generate_amf_components` (lines
1512-1516): entries whose accumulated raw list is empty are dropped (the
emptiness test happens before empty identifier strings are removed). -/
def amfFinalize (d : List (PyStr × List PyStr)) : List (PyStr × List PyStr) :=
  d.filterMap (fun e => if e.2 = [] then none else some (e.1, pySortedIdSet e.2))

/-- The flattened `all_transforms` list (classify.py lines 1485-1489). -/
def corpusTransforms (corpus : AMFCorpus) : List AMFTransform :=
  (corpus.map Prod.snd).flatten

/-- `generate_amf_components` (classify.py lines 1462-1516), as a function of
the parsed JSON corpus it reads. -/
def generate_amf_components (corpus : AMFCorpus)
    (include_previous_transform_ids : Bool) : List (PyStr × List PyStr) :=
  amfFinalize
    ((corpusTransforms corpus).foldl (amfStep include_previous_transform_ids) [])

/-- The relation set of an identifier in the generated components: the empty
list for an absent key, as in `amf_components.get(aces_transform_id, [])`. -/
def lookupIds (g : List (PyStr × List PyStr)) (k : PyStr) : List PyStr :=
  (getEntry g k).getD []

/-- Whether an identifier string appears anywhere in the corpus: as a
`transformId`, an `inverseTransformId` or a previous equivalent id. -/
def appears_in_corpus (corpus : AMFCorpus) (id_ : PyStr) : Bool :=
  (corpusTransforms corpus).any (fun t =>
    t.transformId == id_ || t.inverseTransformId == some id_ ||
      t.previousEquivalentTransformIds.contains id_)

/-- The relation accumulated by the `generate_amf_components` loop with
`include_previous_transform_ids = False`: each transform relates its id to
itself, and when it declares an inverse, the inverse to itself and forward
and inverse to each other. -/
def AccRel (ts : List AMFTransform) (k v : PyStr) : Prop :=
  ∃ t ∈ ts,
    (k = t.transformId ∧ v = t.transformId) ∨
    ∃ inv, t.inverseTransformId = some inv ∧
      ((k = inv ∧ v = inv) ∨ (k = inv ∧ v = t.transformId) ∨
        (k = t.transformId ∧ v = inv))

/-!  Concrete inputs used by the theorems below. -/

/-- The concrete identifier of the spec scenario for the parser. -/
def rec709OutputId : PyStr :=
  "urn:ampas:aces:transformId:v2.0:Output.Academy.Rec709-D65_100nit_in_Rec709-D65_sRGB-Piecewise.a2.v1".toList

/-- The parse result of `rec709OutputId`. -/
def rec709OutputRecord : ACESTransformID :=
  { aces_transform_id := rec709OutputId
    urn := URN_CTL
    type := "Output".toList
    namespace_ := "Academy".toList
    name := "Rec709-D65_100nit_in_Rec709-D65_sRGB-Piecewise".toList
    major_version := "a2".toList
    minor_version := "v1".toList
    patch_version := VALUE_DEFAULT_UNDEFINED
    source := "ACES2065-1".toList
    target := "Rec709-D65_100nit_in_Rec709-D65_sRGB-Piecewise".toList }

/-- A grammatically valid identifier whose name is the bare token `ACES` and
whose type is `Output`. -/
def outputAcesId : PyStr :=
  "urn:ampas:aces:transformId:v2.0:Output.Academy.ACES.a1.v1".toList

/-- An identifier whose URN segment is misspelled (`transformID`), which the
compatibility shim rewrites before parsing. -/
def patchedUrnId : PyStr :=
  "urn:ampas:aces:transformID:v2.0:CSC.Academy.ACES_to_ACEScc.a2.v1".toList

/-- The number of transforms stored in an innermost taxonomy mapping. -/
def entriesLen (em : List (PyStr × ClassifiedEntry)) : Nat :=
  (em.map (fun be => (entryTransforms be.2).length)).sum

/-- The number of transforms stored under one family. -/
def generaLen (gm : List (PyStr × List (PyStr × ClassifiedEntry))) : Nat :=
  (gm.map (fun ge => entriesLen ge.2)).sum

/-- The number of transforms stored in a taxonomy (pairs count as two). -/
def taxonomyLen (tax : Taxonomy) : Nat :=
  (tax.map (fun fe => generaLen fe.2)).sum

/-- A discovered tree in which two distinct files normalize to the same
basename and direction (`Foo.ctl` and `ACES_to_Foo.ctl` both become the
forward slot of `Foo`). -/
def collidingDiscovery : List (PyStr × List PyStr) :=
  [("/r/a".toList, ["/r/a/Foo.ctl".toList, "/r/a/ACES_to_Foo.ctl".toList])]

/-- A discovered tree whose files normalize to distinct slots. -/
def cleanDiscovery : List (PyStr × List PyStr) :=
  [("/r/a".toList,
    ["/r/a/Output.Academy.Foo.ctl".toList, "/r/a/InvOutput.Academy.Foo.ctl".toList])]

/-- A corpus with a previous equivalent id and no inverse. -/
def prevCorpus : AMFCorpus :=
  [("v1".toList, [⟨"A".toList, none, ["B".toList]⟩])]

/-- A corpus with a forward/inverse pair and no previous ids. -/
def invCorpus : AMFCorpus :=
  [("v1".toList, [⟨"A".toList, some "B".toList, []⟩])]

/-- A corpus whose single transform has the empty string as its id. -/
def emptyIdCorpus : AMFCorpus :=
  [("v1".toList, [⟨[], none, []⟩])]

/-- A sample transform record for the filter witnesses. -/
def sampleTransform : CTLTransform :=
  ⟨"/r/a/T.ctl".toList, "f".toList, "g".toList⟩

/-!  Theorems. -/

set_option maxHeartbeats 2000000 in
/-- Helper for the theorems about the source/target computation: every
successful parse satisfies the per-type rules exactly as the code computes
them. -/
theorem parse_ok_source_target_cases (s : PyStr) (r : ACESTransformID)
    (h : aces_transform_id_parse s = .ok r) :
    (r.type = "CSC".toList → pyContains r.name "Unity".toList = true →
        r.source = "ACES2065-1".toList ∧ r.target = "ACES2065-1".toList) ∧
    (r.type = "CSC".toList → pyContains r.name "Unity".toList = false →
        ∃ src tgt, pySplit r.name "_to_".toList = [src, tgt] ∧
          r.source = (if src = "ACES".toList then "ACES2065-1".toList else src) ∧
          r.target = (if tgt = "ACES".toList then "ACES2065-1".toList else tgt)) ∧
    (r.type = "Look".toList ∨ r.type = "InvLook".toList →
        r.source = "ACES2065-1".toList ∧ r.target = "ACES2065-1".toList) ∧
    (r.type = "Output".toList → r.source = "ACES2065-1".toList ∧ r.target = r.name) ∧
    (r.type = "InvOutput".toList → r.source = r.name ∧ r.target = "ACES2065-1".toList) := by
  unfold aces_transform_id_parse at h
  dsimp only at h
  split_ifs at h with h0 h1 h2 h3 h4 h5 h6 h7 h8 h9
  -- the undefined sentinel early return
  · injection h with hr
    subst hr
    refine ⟨fun ht _ => ?_, fun ht _ => ?_, fun ht => ?_, fun ht => ?_, fun ht => ?_⟩ <;>
      simp [acesTransformIdUndefined, VALUE_DEFAULT_UNDEFINED] at ht
  -- CSC with Unity in the name
  · injection h with hr
    subst hr
    refine ⟨fun _ _ => ⟨rfl, rfl⟩, fun _ hu => ?_, fun ht => ?_, fun ht => ?_, fun ht => ?_⟩
    · exact Bool.noConfusion (hu.symm.trans h6)
    · dsimp only at ht
      rcases ht with ht | ht <;> exact absurd (h5.symm.trans ht) (by decide)
    · dsimp only at ht
      exact absurd (h5.symm.trans ht) (by decide)
    · dsimp only at ht
      exact absurd (h5.symm.trans ht) (by decide)
  -- CSC without Unity, name split on _to_
  · split at h
    any_goals exact Except.noConfusion h
    next src tgt heq =>
      injection h with hr
      subst hr
      refine ⟨fun _ hu => ?_, fun _ _ => ?_, fun ht => ?_, fun ht => ?_, fun ht => ?_⟩
      · exact absurd hu h6
      · exact ⟨src, tgt, heq, rfl, rfl⟩
      · dsimp only at ht
        rcases ht with ht | ht <;> exact absurd (h5.symm.trans ht) (by decide)
      · dsimp only at ht
        exact absurd (h5.symm.trans ht) (by decide)
      · dsimp only at ht
        exact absurd (h5.symm.trans ht) (by decide)
  -- Look / InvLook
  · injection h with hr
    subst hr
    refine ⟨fun ht _ => ?_, fun ht _ => ?_, fun _ => ⟨rfl, rfl⟩, fun ht => ?_, fun ht => ?_⟩
    · dsimp only at ht
      exact absurd ht h5
    · dsimp only at ht
      exact absurd ht h5
    · dsimp only at ht
      rcases h7 with h7 | h7 <;> exact absurd (h7.symm.trans ht) (by decide)
    · dsimp only at ht
      rcases h7 with h7 | h7 <;> exact absurd (h7.symm.trans ht) (by decide)
  -- Output
  · injection h with hr
    subst hr
    refine ⟨fun ht _ => ?_, fun ht _ => ?_, fun ht => ?_, fun _ => ⟨rfl, rfl⟩, fun ht => ?_⟩
    · dsimp only at ht
      exact absurd ht h5
    · dsimp only at ht
      exact absurd ht h5
    · dsimp only at ht
      exact absurd ht h7
    · dsimp only at ht
      exact absurd (h8.symm.trans ht) (by decide)
  -- InvOutput
  · injection h with hr
    subst hr
    refine ⟨fun ht _ => ?_, fun ht _ => ?_, fun ht => ?_, fun ht => ?_, fun _ => ⟨rfl, rfl⟩⟩
    · dsimp only at ht
      exact absurd ht h5
    · dsimp only at ht
      exact absurd ht h5
    · dsimp only at ht
      exact absurd ht h7
    · dsimp only at ht
      exact absurd ht h8
  -- Lib: no source/target computed
  · injection h with hr
    subst hr
    refine ⟨fun ht _ => ?_, fun ht _ => ?_, fun ht => ?_, fun ht => ?_, fun ht => ?_⟩
    · dsimp only at ht
      exact absurd ht h5
    · dsimp only at ht
      exact absurd ht h5
    · dsimp only at ht
      exact absurd ht h7
    · dsimp only at ht
      exact absurd ht h8
    · dsimp only at ht
      exact absurd ht h9

/-- C10: constructing an `ACESTransformID` from the literal sentinel string
"undefined" never raises and performs no grammar validation: parsing returns
early and every field (urn, type, namespace, name, versions, source, target)
remains the "undefined" sentinel. -/
theorem parse_undefined_sentinel_no_validation :
    aces_transform_id_parse VALUE_DEFAULT_UNDEFINED =
      .ok
        { aces_transform_id := VALUE_DEFAULT_UNDEFINED
          urn := VALUE_DEFAULT_UNDEFINED
          type := VALUE_DEFAULT_UNDEFINED
          namespace_ := VALUE_DEFAULT_UNDEFINED
          name := VALUE_DEFAULT_UNDEFINED
          major_version := VALUE_DEFAULT_UNDEFINED
          minor_version := VALUE_DEFAULT_UNDEFINED
          patch_version := VALUE_DEFAULT_UNDEFINED
          source := VALUE_DEFAULT_UNDEFINED
          target := VALUE_DEFAULT_UNDEFINED } := by decide

/-- C5: the compatibility shim is not idempotent.  On an identifier
containing both the mistyped URN keyword `transformID` and the legacy curve
name `LogCv3`, one application only repairs `LogCv3` (the `LogCv3` branch
rewrites the original input, discarding the `transformID` repair), so a
second application changes the string again. -/
theorem patch_invalid_aces_transform_id_not_idempotent :
    patch_invalid_aces_transform_id doublyInvalidId =
        "urn:ampas:aces:transformID:v2.0:CSC.ARRI.LogC3_to_ACES.a2.v1".toList ∧
      patch_invalid_aces_transform_id (patch_invalid_aces_transform_id doublyInvalidId) ≠
        patch_invalid_aces_transform_id doublyInvalidId := by decide

/-- C3 (counterexample): an input whose URN segment differs from the
constant, yet parses successfully, because the compatibility shim rewrites
`transformID` to `transformId` before the URN is checked. -/
theorem parse_succeeds_on_patched_urn :
    urnSegment patchedUrnId ≠ URN_CTL ∧
      (aces_transform_id_parse patchedUrnId).isOk = true := by decide

/-- C3 (amended): for every input other than the `undefined` sentinel,
parsing fails whenever, after the compatibility rewrite, the string has no
`:` separator (a `ValueError` from the failing `rsplit` unpacking), or the
segment before the last `:` differs from the URN constant, or the ID part
does not tokenize into a type plus exactly four dot-separated components, or
the type is not one of the six recognized values (each a
`MalformedIdentifier` failure). -/
theorem parse_fails_outside_grammar (s : PyStr) (h : s ≠ VALUE_DEFAULT_UNDEFINED) :
    ((pySplit (patch_invalid_aces_transform_id s) SEPARATOR_URN_CTL).length < 2 →
      aces_transform_id_parse s = .error .valueError) ∧
    (2 ≤ (pySplit (patch_invalid_aces_transform_id s) SEPARATOR_URN_CTL).length →
      urnSegment (patch_invalid_aces_transform_id s) ≠ URN_CTL →
      ∃ m, aces_transform_id_parse s = .error (.malformedIdentifier m)) ∧
    (2 ≤ (pySplit (patch_invalid_aces_transform_id s) SEPARATOR_URN_CTL).length →
      (pySplit ((pySplit (patch_invalid_aces_transform_id s) SEPARATOR_URN_CTL).getLastD [])
        SEPARATOR_ID_CTL).tail.length ≠ 4 →
      ∃ m, aces_transform_id_parse s = .error (.malformedIdentifier m)) ∧
    (2 ≤ (pySplit (patch_invalid_aces_transform_id s) SEPARATOR_URN_CTL).length →
      (pySplit ((pySplit (patch_invalid_aces_transform_id s) SEPARATOR_URN_CTL).getLastD [])
        SEPARATOR_ID_CTL).headD [] ∉ TRANSFORM_TYPES_CTL →
      ∃ m, aces_transform_id_parse s = .error (.malformedIdentifier m)) := by
  unfold aces_transform_id_parse urnSegment
  rw [if_neg h]
  refine ⟨?_, ?_, ?_, ?_⟩
  · intro h1
    rw [if_pos h1]
  · intro h1 h2
    rw [if_neg (by omega : ¬ (pySplit (patch_invalid_aces_transform_id s) SEPARATOR_URN_CTL).length < 2)]
    rw [if_pos h2]
    exact ⟨_, rfl⟩
  · intro h1 h2
    rw [if_neg (by omega : ¬ (pySplit (patch_invalid_aces_transform_id s) SEPARATOR_URN_CTL).length < 2)]
    by_cases hu : pyJoin SEPARATOR_URN_CTL (pySplit (patch_invalid_aces_transform_id s) SEPARATOR_URN_CTL).dropLast ≠ URN_CTL
    · rw [if_pos hu]; exact ⟨_, rfl⟩
    · rw [if_neg hu, if_pos h2]; exact ⟨_, rfl⟩
  · intro h1 h2
    rw [if_neg (by omega : ¬ (pySplit (patch_invalid_aces_transform_id s) SEPARATOR_URN_CTL).length < 2)]
    by_cases hu : pyJoin SEPARATOR_URN_CTL (pySplit (patch_invalid_aces_transform_id s) SEPARATOR_URN_CTL).dropLast ≠ URN_CTL
    · rw [if_pos hu]; exact ⟨_, rfl⟩
    · rw [if_neg hu]
      by_cases hc : (pySplit ((pySplit (patch_invalid_aces_transform_id s) SEPARATOR_URN_CTL).getLastD [])
          SEPARATOR_ID_CTL).tail.length ≠ 4
      · rw [if_pos hc]; exact ⟨_, rfl⟩
      · rw [if_neg hc, if_pos h2]; exact ⟨_, rfl⟩

/-- C3 (witness): `foo:bar` is not the sentinel, has a `:`, and its URN
segment `foo` differs from the constant, so parsing fails with
`MalformedIdentifier`. -/
theorem parse_fails_outside_grammar_witness :
    ∃ m, aces_transform_id_parse "foo:bar".toList = .error (.malformedIdentifier m) :=
  (parse_fails_outside_grammar "foo:bar".toList (by decide)).2.1 (by decide) (by decide)

/-- C4 (counterexample): the identifier
`urn:ampas:aces:transformId:v2.0:Output.Academy.ACES.a1.v1` parses
successfully with the literal token `ACES` as target: the rewriting of the
`ACES` token to `ACES2065-1` happens only inside the `CSC` branch, so an
`Output` transform named `ACES` keeps the raw token. -/
theorem parse_output_aces_target_not_rewritten :
    (aces_transform_id_parse outputAcesId).toOption.map ACESTransformID.target =
        some "ACES".toList ∧
      "ACES".toList ≠ "ACES2065-1".toList := by decide

/-- C4 (amended): for every successfully parsed identifier, source and
target follow the type rules: CSC splits the name on `_to_` unless the name
contains `Unity` (then source = target = working reference space), with the
`ACES` token rewritten to `ACES2065-1` only within this CSC branch;
Look/InvLook map working-reference to working-reference; Output maps
working-reference to the raw name; InvOutput maps the raw name to
working-reference.  The concrete scenario identifier parses to type
`Output`, namespace `Academy`, source `ACES2065-1`, and target equal to its
name. -/
theorem parse_source_target_rules_and_scenario :
    (∀ s r, aces_transform_id_parse s = .ok r →
      ((r.type = "CSC".toList → pyContains r.name "Unity".toList = true →
          r.source = "ACES2065-1".toList ∧ r.target = "ACES2065-1".toList) ∧
       (r.type = "CSC".toList → pyContains r.name "Unity".toList = false →
          ∃ src tgt, pySplit r.name "_to_".toList = [src, tgt] ∧
            r.source = (if src = "ACES".toList then "ACES2065-1".toList else src) ∧
            r.target = (if tgt = "ACES".toList then "ACES2065-1".toList else tgt)) ∧
       (r.type = "Look".toList ∨ r.type = "InvLook".toList →
          r.source = "ACES2065-1".toList ∧ r.target = "ACES2065-1".toList) ∧
       (r.type = "Output".toList → r.source = "ACES2065-1".toList ∧ r.target = r.name) ∧
       (r.type = "InvOutput".toList → r.source = r.name ∧ r.target = "ACES2065-1".toList))) ∧
    aces_transform_id_parse rec709OutputId = .ok rec709OutputRecord :=
  ⟨fun s r h => parse_ok_source_target_cases s r h, by decide⟩

/-- C4 (witness): the Output rule applied to the concrete scenario record. -/
theorem parse_source_target_rules_witness :
    rec709OutputRecord.source = "ACES2065-1".toList ∧
      rec709OutputRecord.target = rec709OutputRecord.name :=
  (parse_source_target_rules_and_scenario.1 rec709OutputId rec709OutputRecord
    (by decide)).2.2.2.1 (by decide)

theorem getSlot_upsertSlot (d : List (PyStr × CTLTransformPairPaths)) (b : PyStr)
    (f : Bool) (p : PyStr) (k : PyStr) (g : Bool) :
    getSlot (upsertSlot d b f p) k g =
      if b = k ∧ f = g then some p else getSlot d k g := by
  induction d with
  | nil =>
    simp only [upsertSlot, getSlot, getEntry, setSlotVal]
    by_cases hbk : b = k
    · subst hbk
      simp only [if_pos rfl]
      cases f <;> cases g <;> simp
    · simp [hbk]
  | cons e es ih =>
    simp only [upsertSlot]
    by_cases heb : e.1 = b
    · rw [if_pos heb]
      simp only [getSlot, getEntry]
      by_cases hek : e.1 = k
      · have hbk : b = k := heb ▸ hek
        simp only [hek, if_pos rfl]
        subst hbk
        cases f <;> cases g <;> simp [setSlotVal]
      · have hbk : ¬ b = k := fun hh => hek (heb.trans hh)
        simp [hek, hbk]
    · rw [if_neg heb]
      simp only [getSlot, getEntry]
      by_cases hek : e.1 = k
      · have hbk : ¬ b = k := fun hh => heb (hek.trans hh.symm)
        simp [hek, hbk]
      · simp only [hek, if_neg hek]
        exact ih

theorem getSlot_find_concat (ps : List PyStr) (p : PyStr) (k : PyStr) (g : Bool) :
    getSlot (find_ctl_transform_pairs (ps ++ [p])) k g =
      if pair_basename_direction p = (k, g) then some p
      else getSlot (find_ctl_transform_pairs ps) k g := by
  unfold find_ctl_transform_pairs
  rw [List.foldl_append]
  simp only [List.foldl_cons, List.foldl_nil]
  rw [getSlot_upsertSlot]
  simp [Prod.ext_iff]

theorem getSlot_find_none_iff (ps : List PyStr) (k : PyStr) (g : Bool) :
    getSlot (find_ctl_transform_pairs ps) k g = none ↔
      (k, g) ∉ ps.map pair_basename_direction := by
  induction ps using List.reverseRecOn with
  | nil => simp [find_ctl_transform_pairs, getSlot, getEntry]
  | append_singleton qs q ih =>
    rw [getSlot_find_concat]
    by_cases h : pair_basename_direction q = (k, g)
    · simp [h]
    · simp only [if_neg h, ih, List.map_append, List.map_cons, List.map_nil]
      simp [List.mem_append, Ne.symm h]

theorem totalSlotCount_upsertSlot (d : List (PyStr × CTLTransformPairPaths))
    (b : PyStr) (f : Bool) (p : PyStr) :
    totalSlotCount (upsertSlot d b f p) =
      totalSlotCount d + (if getSlot d b f = none then 1 else 0) := by
  induction d with
  | nil =>
    cases f <;> simp [upsertSlot, totalSlotCount, slotCount, setSlotVal, getSlot, getEntry]
  | cons e es ih =>
    by_cases heb : e.1 = b
    · simp only [upsertSlot, if_pos heb, totalSlotCount, List.map_cons, List.sum_cons,
        getSlot, getEntry, heb, if_pos rfl]
      rcases e with ⟨k0, ⟨fw, iv⟩⟩
      cases f <;> cases fw <;> cases iv <;> simp [setSlotVal, slotCount] <;> omega
    · simp only [upsertSlot, if_neg heb, totalSlotCount, List.map_cons, List.sum_cons,
        getSlot, getEntry, if_neg heb]
      have ihx := ih
      unfold totalSlotCount at ihx
      unfold getSlot at ihx
      rw [ihx]
      omega

theorem totalSlotCount_find_nodup (ps : List PyStr)
    (h : (ps.map pair_basename_direction).Nodup) :
    totalSlotCount (find_ctl_transform_pairs ps) = ps.length := by
  induction ps using List.reverseRecOn with
  | nil => simp [find_ctl_transform_pairs, totalSlotCount]
  | append_singleton qs q ih =>
    rw [List.map_append, List.nodup_append] at h
    have hfind : find_ctl_transform_pairs (qs ++ [q]) =
        upsertSlot (find_ctl_transform_pairs qs)
          (pair_basename_direction q).1 (pair_basename_direction q).2 q := by
      unfold find_ctl_transform_pairs
      rw [List.foldl_append]
      simp only [List.foldl_cons, List.foldl_nil]
    rw [hfind, totalSlotCount_upsertSlot]
    have hnone : getSlot (find_ctl_transform_pairs qs)
        (pair_basename_direction q).1 (pair_basename_direction q).2 = none := by
      rw [getSlot_find_none_iff]
      intro hmem
      rcases h with ⟨_, _, hdisj⟩
      exact hdisj hmem (by simp)
    rw [hnone, ih h.1]
    simp

theorem getSlot_find_mem (ps : List PyStr)
    (h : (ps.map pair_basename_direction).Nodup) (p : PyStr) (hp : p ∈ ps) :
    getSlot (find_ctl_transform_pairs ps)
      (pair_basename_direction p).1 (pair_basename_direction p).2 = some p := by
  induction ps using List.reverseRecOn with
  | nil => cases hp
  | append_singleton qs q ih =>
    rw [List.map_append, List.nodup_append] at h
    rw [getSlot_find_concat]
    rcases List.mem_append.1 hp with hq | hq
    · have hne : ¬ pair_basename_direction q =
          ((pair_basename_direction p).1, (pair_basename_direction p).2) := by
        intro hh
        rcases h with ⟨_, _, hdisj⟩
        exact hdisj (List.mem_map_of_mem _ hq) (by simpa using hh.symm)
      rw [if_neg hne]
      exact ih h.1 hq
    · have hpq : p = q := by simpa using hq
      subst hpq
      exact if_pos rfl

/-- C6 (amended): PairIndex pairing is symmetric.  When a forward file and
an inverse file normalize to the same basename (and no other file collides
with their slots), both paths are captured under that one basename key, one
as the forward and one as the inverse slot.  For the concrete files
`Output.Academy.Foo.ctl` and `InvOutput.Academy.Foo.ctl` the shared key is
`Output.Academy.Foo` — the full filename stem with the `Inv` marker removed,
not the bare name `Foo`. -/
theorem find_pairs_symmetric_pairing :
    (∀ (paths : List PyStr) (b p1 p2 : PyStr),
      (paths.map pair_basename_direction).Nodup →
      p1 ∈ paths → pair_basename_direction p1 = (b, true) →
      p2 ∈ paths → pair_basename_direction p2 = (b, false) →
      getSlot (find_ctl_transform_pairs paths) b true = some p1 ∧
        getSlot (find_ctl_transform_pairs paths) b false = some p2) ∧
    find_ctl_transform_pairs
        ["Output.Academy.Foo.ctl".toList, "InvOutput.Academy.Foo.ctl".toList] =
      [("Output.Academy.Foo".toList,
        ⟨some "Output.Academy.Foo.ctl".toList,
          some "InvOutput.Academy.Foo.ctl".toList⟩)] := by
  constructor
  · intro paths b p1 p2 hnd h1 hbd1 h2 hbd2
    constructor
    · have hs := getSlot_find_mem paths hnd p1 h1
      rw [hbd1] at hs
      exact hs
    · have hs := getSlot_find_mem paths hnd p2 h2
      rw [hbd2] at hs
      exact hs
  · decide

/-- C6 (counterexample): for `Output.Academy.Foo.ctl` and
`InvOutput.Academy.Foo.ctl` the single entry of the pair index is keyed
`Output.Academy.Foo`; the claimed key `Foo` is absent. -/
theorem find_pairs_key_not_bare_name :
    (find_ctl_transform_pairs
        ["Output.Academy.Foo.ctl".toList, "InvOutput.Academy.Foo.ctl".toList]).map
        Prod.fst = ["Output.Academy.Foo".toList] ∧
      getEntry (find_ctl_transform_pairs
        ["Output.Academy.Foo.ctl".toList, "InvOutput.Academy.Foo.ctl".toList])
        "Foo".toList = none := by decide

/-- C6 (witness): the general pairing property applied to the two concrete
files. -/
theorem find_pairs_symmetric_pairing_witness :
    getSlot (find_ctl_transform_pairs
        ["Output.Academy.Foo.ctl".toList, "InvOutput.Academy.Foo.ctl".toList])
        "Output.Academy.Foo".toList true = some "Output.Academy.Foo.ctl".toList ∧
      getSlot (find_ctl_transform_pairs
        ["Output.Academy.Foo.ctl".toList, "InvOutput.Academy.Foo.ctl".toList])
        "Output.Academy.Foo".toList false = some "InvOutput.Academy.Foo.ctl".toList :=
  find_pairs_symmetric_pairing.1 _ "Output.Academy.Foo".toList _ _
    (by decide) (by decide) (by decide) (by decide) (by decide)




theorem length_unclassify (tax : Taxonomy) :
    (unclassify_ctl_transforms tax).length = taxonomyLen tax := by
  unfold unclassify_ctl_transforms taxonomyLen generaLen entriesLen
  rw [List.length_flatten]
  congr 1
  rw [List.map_map]
  apply List.map_congr_left
  intro fe _
  simp only [Function.comp_apply]
  rw [List.length_flatten, List.map_map]
  congr 1
  apply List.map_congr_left
  intro ge _
  simp only [Function.comp_apply]
  rw [List.length_flatten, List.map_map]
  rfl

theorem getEntry_upsertWith {β : Type} (upd : β → β) (dflt : β)
    (d : List (PyStr × β)) (k k' : PyStr) :
    getEntry (upsertWith upd dflt d k) k' =
      if k = k' then some (upd ((getEntry d k).getD dflt)) else getEntry d k' := by
  induction d with
  | nil => by_cases h : k = k' <;> simp [upsertWith, getEntry, h]
  | cons e es ih =>
    by_cases hek : e.1 = k
    · subst hek
      by_cases hkk : e.1 = k'
      · simp [upsertWith, getEntry, hkk]
      · simp [upsertWith, getEntry, hkk]
    · by_cases hkk : e.1 = k'
      · have hkn : ¬ k = k' := fun hh => hek (hkk.trans hh.symm)
        simp [upsertWith, getEntry, hek, hkk, hkn, Ne.symm hkn]
      · simp [upsertWith, getEntry, hek, hkk, ih]

theorem getEntry_none_iff {β : Type} (d : List (PyStr × β)) (k : PyStr) :
    getEntry d k = none ↔ k ∉ d.map Prod.fst := by
  induction d with
  | nil => simp [getEntry]
  | cons e es ih =>
    simp only [getEntry, List.map_cons, List.mem_cons]
    by_cases h : e.1 = k
    · rw [if_pos h]
      constructor
      · intro hh
        exact Option.noConfusion hh
      · intro hh
        exact (hh (Or.inl h.symm)).elim
    · rw [if_neg h, ih]
      constructor
      · intro hh hor
        rcases hor with hk | hm
        · exact h hk.symm
        · exact hh hm
      · intro hh hm
        exact hh (Or.inr hm)

theorem taxonomyGet_taxonomyInsert (tax : Taxonomy) (f g b : PyStr)
    (e : ClassifiedEntry) (f' g' b' : PyStr) :
    taxonomyGet (taxonomyInsert tax f g b e) f' g' b' =
      if f = f' ∧ g = g' ∧ b = b' then some e else taxonomyGet tax f' g' b' := by
  unfold taxonomyInsert taxonomyGet
  rw [getEntry_upsertWith]
  by_cases hf : f = f'
  · rw [if_pos hf]
    subst hf
    dsimp only
    rw [getEntry_upsertWith]
    by_cases hg : g = g'
    · rw [if_pos hg]
      subst hg
      dsimp only
      rw [getEntry_upsertWith]
      by_cases hb : b = b'
      · rw [if_pos hb, if_pos ⟨rfl, rfl, hb⟩]
      · rw [if_neg hb, if_neg (fun hh => hb hh.2.2)]
        cases hgf : getEntry tax f with
        | none => simp [getEntry]
        | some gm =>
          cases hge : getEntry gm g with
          | none =>
            simp only [Option.getD_some]
            rw [hge]
            simp [getEntry]
          | some em =>
            simp only [Option.getD_some]
            rw [hge]
            rfl
    · rw [if_neg hg, if_neg (fun hh => hg hh.2.1)]
      cases hgf : getEntry tax f with
      | none => simp [getEntry]
      | some gm => simp
  · rw [if_neg hf, if_neg (fun hh => hf hh.1)]

theorem entriesLen_insert (em : List (PyStr × ClassifiedEntry)) (b : PyStr)
    (e : ClassifiedEntry) (h : getEntry em b = none) :
    entriesLen (upsertWith (fun _ => e) e em b) =
      entriesLen em + (entryTransforms e).length := by
  induction em with
  | nil => simp [upsertWith, entriesLen]
  | cons x xs ih =>
    have hx : ¬ x.1 = b := by
      intro hh
      rw [getEntry, if_pos hh] at h
      exact Option.noConfusion h
    simp only [getEntry, if_neg hx] at h
    simp only [upsertWith, if_neg hx, entriesLen, List.map_cons, List.sum_cons]
    have hxs := ih h
    unfold entriesLen at hxs
    omega

theorem generaLen_insert (gm : List (PyStr × List (PyStr × ClassifiedEntry)))
    (g b : PyStr) (e : ClassifiedEntry)
    (h : (match getEntry gm g with
          | none => none
          | some em => getEntry em b) = none) :
    generaLen (upsertWith (fun em => upsertWith (fun _ => e) e em b) [] gm g) =
      generaLen gm + (entryTransforms e).length := by
  induction gm with
  | nil => simp [upsertWith, generaLen, entriesLen]
  | cons x xs ih =>
    by_cases hx : x.1 = g
    · simp only [getEntry, if_pos hx] at h
      simp only [upsertWith, if_pos hx, generaLen, List.map_cons, List.sum_cons]
      rw [entriesLen_insert x.2 b e h]
      omega
    · simp only [getEntry, if_neg hx] at h
      simp only [upsertWith, if_neg hx, generaLen, List.map_cons, List.sum_cons]
      have hxs := ih h
      unfold generaLen at hxs
      omega

theorem taxonomyLen_insert (tax : Taxonomy) (f g b : PyStr) (e : ClassifiedEntry)
    (h : taxonomyGet tax f g b = none) :
    taxonomyLen (taxonomyInsert tax f g b e) =
      taxonomyLen tax + (entryTransforms e).length := by
  unfold taxonomyGet at h
  unfold taxonomyInsert
  induction tax with
  | nil => simp [upsertWith, taxonomyLen, generaLen, entriesLen]
  | cons x xs ih =>
    by_cases hx : x.1 = f
    · simp only [getEntry, if_pos hx] at h
      simp only [upsertWith, if_pos hx, taxonomyLen, List.map_cons, List.sum_cons]
      rw [generaLen_insert x.2 g b e h]
      omega
    · simp only [getEntry, if_neg hx] at h
      simp only [upsertWith, if_neg hx, taxonomyLen, List.map_cons, List.sum_cons]
      have hxs := ih h
      unfold taxonomyLen at hxs
      omega

theorem keys_upsertSlot (d : List (PyStr × CTLTransformPairPaths)) (k : PyStr)
    (f : Bool) (p : PyStr) :
    (upsertSlot d k f p).map Prod.fst =
      if getEntry d k = none then d.map Prod.fst ++ [k] else d.map Prod.fst := by
  induction d with
  | nil => simp [upsertSlot, getEntry]
  | cons e es ih =>
    by_cases he : e.1 = k
    · simp [upsertSlot, getEntry, he]
    · simp only [upsertSlot, if_neg he, getEntry, List.map_cons, ih]
      by_cases hn : getEntry es k = none <;> simp [hn, he]

theorem find_keys_nodup (ps : List PyStr) :
    ((find_ctl_transform_pairs ps).map Prod.fst).Nodup := by
  induction ps using List.reverseRecOn with
  | nil => simp [find_ctl_transform_pairs]
  | append_singleton qs q ih =>
    have hfind : find_ctl_transform_pairs (qs ++ [q]) =
        upsertSlot (find_ctl_transform_pairs qs)
          (pair_basename_direction q).1 (pair_basename_direction q).2 q := by
      unfold find_ctl_transform_pairs
      rw [List.foldl_append]
      simp only [List.foldl_cons, List.foldl_nil]
    rw [hfind, keys_upsertSlot]
    by_cases hn : getEntry (find_ctl_transform_pairs qs) (pair_basename_direction q).1 = none
    · rw [if_pos hn]
      rw [List.nodup_append]
      refine ⟨ih, List.nodup_singleton _, ?_⟩
      intro a ha hb
      simp only [List.mem_singleton] at hb
      subst hb
      exact (getEntry_none_iff _ _).1 hn ha
    · rw [if_neg hn]
      exact ih

theorem taxonomyLen_entry_fold (f g : PyStr)
    (L : List (PyStr × CTLTransformPairPaths)) :
    ∀ tax : Taxonomy, (∀ bs ∈ L, taxonomyGet tax f g bs.1 = none) →
      (L.map Prod.fst).Nodup →
      taxonomyLen (L.foldl (fun t bs =>
        match classifyEntryOf f g bs.2 with
        | some e => taxonomyInsert t f g bs.1 e
        | none => t) tax) =
      taxonomyLen tax + totalSlotCount L := by
  induction L with
  | nil =>
    intro tax _ _
    simp [totalSlotCount]
  | cons bs rest ih =>
    intro tax hfresh hnd
    rw [List.map_cons] at hnd
    have hkey := (List.nodup_cons.1 hnd).1
    have hnd2 := (List.nodup_cons.1 hnd).2
    simp only [List.foldl_cons]
    rcases hE : classifyEntryOf f g bs.2 with _ | e
    · have hsc : slotCount bs.2 = 0 := by
        clear ih
        rcases bs with ⟨b, ⟨fw, iv⟩⟩
        cases fw <;> cases iv
        · rfl
        · exact absurd hE (by simp [classifyEntryOf])
        · exact absurd hE (by simp [classifyEntryOf])
        · exact absurd hE (by simp [classifyEntryOf])
      dsimp only
      have hrest := ih tax (fun b hb => hfresh b (List.mem_cons_of_mem _ hb)) hnd2
      rw [hrest]
      unfold totalSlotCount
      simp only [List.map_cons, List.sum_cons]
      omega
    · dsimp only
      have hins := taxonomyLen_insert tax f g bs.1 e (hfresh bs (List.mem_cons_self _ _))
      have hlen : (entryTransforms e).length = slotCount bs.2 := by
        clear ih
        rcases bs with ⟨b, ⟨fw, iv⟩⟩
        cases fw <;> cases iv <;> simp only [classifyEntryOf] at hE
        · exact Option.noConfusion hE
        · injection hE with hE2
          rw [← hE2]
          rfl
        · injection hE with hE2
          rw [← hE2]
          rfl
        · injection hE with hE2
          rw [← hE2]
          rfl
      have hfresh2 : ∀ bs' ∈ rest,
          taxonomyGet (taxonomyInsert tax f g bs.1 e) f g bs'.1 = none := by
        intro bs' hm
        rw [taxonomyGet_taxonomyInsert]
        have hne : ¬ (f = f ∧ g = g ∧ bs.1 = bs'.1) := by
          rintro ⟨-, -, hb⟩
          exact hkey (hb ▸ List.mem_map_of_mem Prod.fst hm)
        rw [if_neg hne]
        exact hfresh bs' (List.mem_cons_of_mem _ hm)
      have hrest := ih (taxonomyInsert tax f g bs.1 e) hfresh2 hnd2
      rw [hrest, hins]
      unfold totalSlotCount
      simp only [List.map_cons, List.sum_cons]
      omega

theorem taxonomyGet_entry_fold_other (f g : PyStr)
    (L : List (PyStr × CTLTransformPairPaths)) :
    ∀ (tax : Taxonomy) (f' g' b' : PyStr), ¬ (f = f' ∧ g = g') →
      taxonomyGet (L.foldl (fun t bs =>
        match classifyEntryOf f g bs.2 with
        | some e => taxonomyInsert t f g bs.1 e
        | none => t) tax) f' g' b' = taxonomyGet tax f' g' b' := by
  induction L with
  | nil =>
    intro tax f' g' b' _
    rfl
  | cons bs rest ih =>
    intro tax f' g' b' hne
    simp only [List.foldl_cons]
    rcases hE : classifyEntryOf f g bs.2 with _ | e
    · dsimp only
      exact ih tax f' g' b' hne
    · dsimp only
      rw [ih _ f' g' b' hne, taxonomyGet_taxonomyInsert]
      rw [if_neg (fun hh => hne ⟨hh.1, hh.2.1⟩)]

theorem taxonomyLen_classify_fold (root : PyStr) (ds : List (PyStr × List PyStr)) :
    ∀ tax : Taxonomy,
      (ds.map (fun de => classify_family_genus root de.1)).Nodup →
      (∀ de ∈ ds, ∀ b, taxonomyGet tax (classify_family_genus root de.1).1
        (classify_family_genus root de.1).2 b = none) →
      (∀ de ∈ ds, (de.2.map pair_basename_direction).Nodup) →
      taxonomyLen (ds.foldl (classifyDirStep root) tax) =
        taxonomyLen tax + (ds.map (fun de => de.2.length)).sum := by
  induction ds with
  | nil =>
    intro tax _ _ _
    simp
  | cons de rest ih =>
    intro tax hfg hdisj hnd
    rw [List.map_cons] at hfg
    have hfgne := (List.nodup_cons.1 hfg).1
    have hfg2 := (List.nodup_cons.1 hfg).2
    simp only [List.foldl_cons]
    have hstep : classifyDirStep root tax de =
        (find_ctl_transform_pairs de.2).foldl (fun t bs =>
          match classifyEntryOf (classify_family_genus root de.1).1
              (classify_family_genus root de.1).2 bs.2 with
          | some e => taxonomyInsert t (classify_family_genus root de.1).1
              (classify_family_genus root de.1).2 bs.1 e
          | none => t) tax := rfl
    have hlen1 : taxonomyLen (classifyDirStep root tax de) =
        taxonomyLen tax + de.2.length := by
      rw [hstep]
      rw [taxonomyLen_entry_fold _ _ _ tax
        (fun bs _ => hdisj de (List.mem_cons_self _ _) bs.1)
        (find_keys_nodup de.2)]
      rw [totalSlotCount_find_nodup de.2 (hnd de (List.mem_cons_self _ _))]
    have hdisj2 : ∀ de' ∈ rest, ∀ b,
        taxonomyGet (classifyDirStep root tax de)
          (classify_family_genus root de'.1).1
          (classify_family_genus root de'.1).2 b = none := by
      intro de' hm b
      rw [hstep, taxonomyGet_entry_fold_other]
      · exact hdisj de' (List.mem_cons_of_mem _ hm) b
      · rintro ⟨h1, h2⟩
        apply hfgne
        have : classify_family_genus root de.1 = classify_family_genus root de'.1 := by
          rw [Prod.ext_iff]
          exact ⟨h1, h2⟩
        rw [this]
        exact List.mem_map_of_mem _ hm
    have hrest := ih (classifyDirStep root tax de) hfg2 hdisj2
      (fun de' hm => hnd de' (List.mem_cons_of_mem _ hm))
    rw [hrest, hlen1]
    simp only [List.map_cons, List.sum_cons]
    omega



/-- C2 (amended): when no two files of one directory normalize to the same
(basename, direction) slot and no two discovered directories derive the same
(family, genus) pair, classification places every discovered file and
flattening the taxonomy yields exactly as many records as there were
discovered paths, each pair contributing two. -/
theorem classify_unclassify_length_with_distinct_slots
    (discovered : List (PyStr × List PyStr))
    (h1 : ∀ de ∈ discovered, (de.2.map pair_basename_direction).Nodup)
    (h2 : (discovered.map (fun de => classify_family_genus
        (paths_common_ancestor ((discovered.map Prod.snd).flatten)) de.1)).Nodup) :
    (unclassify_ctl_transforms (classify_aces_ctl_transforms discovered)).length =
      (discovered.map (fun de => de.2.length)).sum := by
  rw [length_unclassify]
  unfold classify_aces_ctl_transforms
  rw [taxonomyLen_classify_fold _ _ [] h2 (fun de _ b => rfl) h1]
  simp [taxonomyLen]

/-- C2 (counterexample): `Foo.ctl` and `ACES_to_Foo.ctl` in one directory
normalize to the same forward slot of basename `Foo`; the later path
silently overwrites the earlier one, so only one of the two discovered
files survives classification and the flattened list is shorter than the
discovery. -/
theorem classify_unclassify_drops_colliding_file :
    (unclassify_ctl_transforms (classify_aces_ctl_transforms collidingDiscovery)).length = 1 ∧
      (collidingDiscovery.map (fun de => de.2.length)).sum = 2 ∧
      (unclassify_ctl_transforms (classify_aces_ctl_transforms collidingDiscovery)).map
        CTLTransform.path = ["/r/a/ACES_to_Foo.ctl".toList] := by decide

/-- C2 (witness): the length equality applied to a collision-free
discovery of one forward/inverse pair. -/
theorem classify_unclassify_length_witness :
    (unclassify_ctl_transforms (classify_aces_ctl_transforms cleanDiscovery)).length =
      (cleanDiscovery.map (fun de => de.2.length)).sum :=
  classify_unclassify_length_with_distinct_slots cleanDiscovery (by decide) (by decide)

theorem lookupIds_dictAppend (d : List (PyStr × List PyStr)) (k : PyStr)
    (vs : List PyStr) (k' : PyStr) :
    lookupIds (dictAppend d k vs) k' =
      if k = k' then lookupIds d k' ++ vs else lookupIds d k' := by
  induction d with
  | nil =>
    by_cases h : k = k' <;> simp [dictAppend, lookupIds, getEntry, h]
  | cons e es ih =>
    by_cases hek : e.1 = k
    · subst hek
      by_cases hkk : e.1 = k'
      · simp [dictAppend, lookupIds, getEntry, hkk]
      · simp [dictAppend, lookupIds, getEntry, hkk]
    · by_cases hkk : e.1 = k'
      · have hkn : ¬ k = k' := fun hh => hek (hkk.trans hh.symm)
        simp [dictAppend, lookupIds, getEntry, hek, hkk, hkn, Ne.symm hkn]
      · simp only [dictAppend, if_neg hek, lookupIds, getEntry, if_neg hkk]
        exact ih

theorem getEntry_isSome_dictAppend (d : List (PyStr × List PyStr)) (k : PyStr)
    (vs : List PyStr) (k' : PyStr) :
    (getEntry (dictAppend d k vs) k').isSome = (k = k' || (getEntry d k').isSome) := by
  induction d with
  | nil =>
    by_cases h : k = k' <;> simp [dictAppend, getEntry, h]
  | cons e es ih =>
    by_cases hek : e.1 = k
    · subst hek
      by_cases hkk : e.1 = k'
      · simp [dictAppend, getEntry, hkk]
      · simp [dictAppend, getEntry, hkk]
    · by_cases hkk : e.1 = k'
      · have hkn : ¬ k = k' := fun hh => hek (hkk.trans hh.symm)
        simp [dictAppend, getEntry, hek, hkk, hkn, Ne.symm hkn]
      · simp only [dictAppend, if_neg hek, getEntry, if_neg hkk]
        exact ih

theorem selfmem_dictAppend (d : List (PyStr × List PyStr)) (k : PyStr)
    (vs : List PyStr) (h : ∀ e ∈ d, e.1 ∈ e.2)
    (hk : k ∈ vs ∨ (getEntry d k).isSome = true) :
    ∀ e ∈ dictAppend d k vs, e.1 ∈ e.2 := by
  induction d with
  | nil =>
    rcases hk with hk | hk
    · intro e he
      simp only [dictAppend, List.mem_singleton] at he
      subst he
      exact hk
    · simp [getEntry] at hk
  | cons x xs ih =>
    by_cases hx : x.1 = k
    · intro e he
      simp only [dictAppend, if_pos hx, List.mem_cons] at he
      rcases he with he | he
      · subst he
        exact List.mem_append_left _ (h x (List.mem_cons_self _ _))
      · exact h e (List.mem_cons_of_mem _ he)
    · intro e he
      simp only [dictAppend, if_neg hx, List.mem_cons] at he
      rcases he with he | he
      · subst he
        exact h _ (List.mem_cons_self _ _)
      · refine ih (fun e' he' => h e' (List.mem_cons_of_mem _ he')) ?_ e he
        rcases hk with hk | hk
        · exact Or.inl hk
        · right
          simp only [getEntry, if_neg hx] at hk
          exact hk

theorem entries_nonempty_dictAppend (d : List (PyStr × List PyStr)) (k : PyStr)
    (vs : List PyStr) (h : ∀ e ∈ d, e.2 ≠ []) (hv : vs ≠ []) :
    ∀ e ∈ dictAppend d k vs, e.2 ≠ [] := by
  induction d with
  | nil =>
    intro e he
    simp only [dictAppend, List.mem_singleton] at he
    subst he
    exact hv
  | cons x xs ih =>
    by_cases hx : x.1 = k
    · intro e he
      simp only [dictAppend, if_pos hx, List.mem_cons] at he
      rcases he with he | he
      · subst he
        simp only [ne_eq, List.append_eq_nil, not_and]
        intro hh
        exact absurd hh (h x (List.mem_cons_self _ _))
      · exact h e (List.mem_cons_of_mem _ he)
    · intro e he
      simp only [dictAppend, if_neg hx, List.mem_cons] at he
      rcases he with he | he
      · subst he
        exact h _ (List.mem_cons_self _ _)
      · exact ih (fun e' he' => h e' (List.mem_cons_of_mem _ he')) e he

theorem selfmem_amfStep (b : Bool) (d : List (PyStr × List PyStr))
    (t : AMFTransform) (h : ∀ e ∈ d, e.1 ∈ e.2) :
    ∀ e ∈ amfStep b d t, e.1 ∈ e.2 := by
  cases hinv : t.inverseTransformId with
  | none =>
    cases b
    · simp only [amfStep, hinv, Bool.false_eq_true, if_false]
      exact selfmem_dictAppend _ _ _ h (Or.inl (by simp))
    · simp only [amfStep, hinv, if_true]
      exact selfmem_dictAppend _ _ _
        (selfmem_dictAppend _ _ _ h (Or.inl (by simp)))
        (Or.inr (by simp [getEntry_isSome_dictAppend]))
  | some inv =>
    cases b
    · simp only [amfStep, hinv, Bool.false_eq_true, if_false]
      exact selfmem_dictAppend _ _ _
        (selfmem_dictAppend _ _ _
          (selfmem_dictAppend _ _ _
            (selfmem_dictAppend _ _ _ h (Or.inl (by simp)))
            (Or.inl (by simp)))
          (Or.inr (by simp [getEntry_isSome_dictAppend])))
        (Or.inr (by simp [getEntry_isSome_dictAppend]))
    · simp only [amfStep, hinv, if_true]
      exact selfmem_dictAppend _ _ _
        (selfmem_dictAppend _ _ _
          (selfmem_dictAppend _ _ _
            (selfmem_dictAppend _ _ _
              (selfmem_dictAppend _ _ _
                (selfmem_dictAppend _ _ _ h (Or.inl (by simp)))
                (Or.inr (by simp [getEntry_isSome_dictAppend])))
              (Or.inl (by simp)))
            (Or.inr (by simp [getEntry_isSome_dictAppend])))
          (Or.inr (by simp [getEntry_isSome_dictAppend])))
        (Or.inr (by simp [getEntry_isSome_dictAppend]))

theorem selfmem_amf_foldl (b : Bool) (ts : List AMFTransform) :
    ∀ d, (∀ e ∈ d, e.1 ∈ e.2) →
      ∀ e ∈ ts.foldl (amfStep b) d, e.1 ∈ e.2 := by
  induction ts with
  | nil =>
    intro d h
    exact h
  | cons t rest ih =>
    intro d h
    simp only [List.foldl_cons]
    exact ih (amfStep b d t) (selfmem_amfStep b d t h)

theorem mem_insSorted (x : PyStr) (l : List PyStr) (a : PyStr) :
    a ∈ insSorted x l ↔ a = x ∨ a ∈ l := by
  induction l with
  | nil => simp [insSorted]
  | cons y ys ih =>
    by_cases hle : pyStrLe x y
    · simp [insSorted, hle]
    · simp only [insSorted, if_neg hle, List.mem_cons, ih]
      tauto

theorem mem_pySortStrs (l : List PyStr) (a : PyStr) :
    a ∈ pySortStrs l ↔ a ∈ l := by
  induction l with
  | nil => simp [pySortStrs]
  | cons x xs ih => simp [pySortStrs, mem_insSorted, ih]

theorem mem_pyDedup (l : List PyStr) (a : PyStr) :
    a ∈ pyDedup l ↔ a ∈ l := by
  induction l with
  | nil => simp [pyDedup]
  | cons x xs ih =>
    by_cases hx : x ∈ xs
    · rw [pyDedup, if_pos hx, ih]
      constructor
      · exact fun hh => List.mem_cons_of_mem _ hh
      · intro hh
        rcases List.mem_cons.1 hh with rfl | hh
        · exact hx
        · exact hh
    · rw [pyDedup, if_neg hx]
      simp [ih]

theorem mem_pySortedIdSet (vs : List PyStr) (a : PyStr) :
    a ∈ pySortedIdSet vs ↔ a ≠ [] ∧ a ∈ vs := by
  unfold pySortedIdSet
  rw [mem_pySortStrs, mem_pyDedup, List.mem_filter]
  simp only [decide_eq_true_eq]
  tauto

theorem amfFinalize_of_nonempty (d : List (PyStr × List PyStr))
    (h : ∀ e ∈ d, e.2 ≠ []) :
    amfFinalize d = d.map (fun e => (e.1, pySortedIdSet e.2)) := by
  induction d with
  | nil => rfl
  | cons e es ih =>
    unfold amfFinalize
    simp only [List.filterMap_cons, List.map_cons]
    rw [if_neg (h e (List.mem_cons_self _ _))]
    dsimp only
    congr 1
    have hx := ih (fun e' he' => h e' (List.mem_cons_of_mem _ he'))
    unfold amfFinalize at hx
    exact hx

theorem getEntry_map_val {β γ : Type} (F : β → γ) (d : List (PyStr × β)) (k : PyStr) :
    getEntry (d.map (fun e => (e.1, F e.2))) k = (getEntry d k).map F := by
  induction d with
  | nil => rfl
  | cons e es ih =>
    by_cases h : e.1 = k
    · simp [getEntry, h]
    · simp [getEntry, h, ih]

/-- C9 (amended): every entry of the generated AMF components whose key is
a non-empty identifier contains its own key in its relation set, which is
therefore non-empty.  (The source drops an entry only when its raw
accumulated list is empty — a test made before empty identifier strings are
removed — so a key equal to the empty string can map to an empty list.) -/
theorem generate_amf_components_self_membership (corpus : AMFCorpus) (b : Bool)
    (k : PyStr) (vs : List PyStr)
    (hmem : (k, vs) ∈ generate_amf_components corpus b) (hk : k ≠ []) :
    k ∈ vs ∧ vs ≠ [] := by
  unfold generate_amf_components amfFinalize at hmem
  rcases List.mem_filterMap.1 hmem with ⟨e, he, hfe⟩
  by_cases hnil : e.2 = []
  · rw [if_pos hnil] at hfe
    exact Option.noConfusion hfe
  · rw [if_neg hnil] at hfe
    injection hfe with hfe
    have hk1 : e.1 = k := congrArg Prod.fst hfe
    have hv1 : pySortedIdSet e.2 = vs := congrArg Prod.snd hfe
    have hself := selfmem_amf_foldl b (corpusTransforms corpus) [] (by simp) e he
    have hkv : k ∈ vs := by
      rw [← hv1, mem_pySortedIdSet]
      exact ⟨hk, hk1 ▸ hself⟩
    exact ⟨hkv, List.ne_nil_of_mem hkv⟩

theorem entries_nonempty_amfStep_false (d : List (PyStr × List PyStr))
    (t : AMFTransform) (h : ∀ e ∈ d, e.2 ≠ []) :
    ∀ e ∈ amfStep false d t, e.2 ≠ [] := by
  cases hinv : t.inverseTransformId with
  | none =>
    simp only [amfStep, hinv, Bool.false_eq_true, if_false]
    exact entries_nonempty_dictAppend _ _ _ h (by simp)
  | some inv =>
    simp only [amfStep, hinv, Bool.false_eq_true, if_false]
    exact entries_nonempty_dictAppend _ _ _
      (entries_nonempty_dictAppend _ _ _
        (entries_nonempty_dictAppend _ _ _
          (entries_nonempty_dictAppend _ _ _ h (by simp))
          (by simp))
        (by simp))
      (by simp)

theorem entries_nonempty_amf_foldl_false (ts : List AMFTransform) :
    ∀ d, (∀ e ∈ d, e.2 ≠ []) →
      ∀ e ∈ ts.foldl (amfStep false) d, e.2 ≠ [] := by
  induction ts with
  | nil =>
    intro d h
    exact h
  | cons t rest ih =>
    intro d h
    simp only [List.foldl_cons]
    exact ih (amfStep false d t) (entries_nonempty_amfStep_false d t h)

theorem mem_lookup_amfStep_false (d : List (PyStr × List PyStr))
    (t : AMFTransform) (k v : PyStr) :
    v ∈ lookupIds (amfStep false d t) k ↔
      v ∈ lookupIds d k ∨ (k = t.transformId ∧ v = t.transformId) ∨
      ∃ inv, t.inverseTransformId = some inv ∧
        ((k = inv ∧ v = inv) ∨ (k = inv ∧ v = t.transformId) ∨
          (k = t.transformId ∧ v = inv)) := by
  cases hinv : t.inverseTransformId with
  | none =>
    simp only [amfStep, hinv, Bool.false_eq_true, if_false]
    rw [lookupIds_dictAppend]
    by_cases ht : t.transformId = k
    · simp only [if_pos ht, List.mem_append, List.mem_singleton, ht]
      simp [eq_comm]
    · simp only [if_neg ht]
      have : ¬ (k = t.transformId) := fun hh => ht hh.symm
      simp [this]
  | some inv =>
    simp only [amfStep, hinv, Bool.false_eq_true, if_false]
    rw [lookupIds_dictAppend, lookupIds_dictAppend, lookupIds_dictAppend,
      lookupIds_dictAppend]
    by_cases ht : t.transformId = k <;> by_cases hi : inv = k <;>
      simp only [if_pos, if_neg, ht, hi, List.mem_append, List.mem_singleton] <;>
      simp [eq_comm, ht, hi] <;>
      tauto

theorem mem_lookup_amf_foldl_false (ts : List AMFTransform) :
    ∀ (d : List (PyStr × List PyStr)) (k v : PyStr),
      v ∈ lookupIds (ts.foldl (amfStep false) d) k ↔
        v ∈ lookupIds d k ∨ AccRel ts k v := by
  induction ts with
  | nil =>
    intro d k v
    simp [AccRel]
  | cons t rest ih =>
    intro d k v
    simp only [List.foldl_cons]
    rw [ih, mem_lookup_amfStep_false]
    constructor
    · rintro (h | h)
      · rcases h with h | h | h
        · exact Or.inl h
        · exact Or.inr ⟨t, List.mem_cons_self _ _, Or.inl h⟩
        · exact Or.inr ⟨t, List.mem_cons_self _ _, Or.inr h⟩
      · rcases h with ⟨t2, ht2, hc⟩
        exact Or.inr ⟨t2, List.mem_cons_of_mem _ ht2, hc⟩
    · rintro (h | ⟨t2, ht2, hc⟩)
      · exact Or.inl (Or.inl h)
      · rcases List.mem_cons.1 ht2 with rfl | ht2
        · rcases hc with hc | hc
          · exact Or.inl (Or.inr (Or.inl hc))
          · exact Or.inl (Or.inr (Or.inr hc))
        · exact Or.inr ⟨t2, ht2, hc⟩

theorem mem_lookup_generate_false (corpus : AMFCorpus) (k v : PyStr) :
    v ∈ lookupIds (generate_amf_components corpus false) k ↔
      v ≠ [] ∧ AccRel (corpusTransforms corpus) k v := by
  unfold generate_amf_components
  rw [amfFinalize_of_nonempty _
    (entries_nonempty_amf_foldl_false (corpusTransforms corpus) [] (by simp))]
  have hacc := mem_lookup_amf_foldl_false (corpusTransforms corpus) [] k v
  have hempty : lookupIds [] k = ([] : List PyStr) := rfl
  rw [hempty] at hacc
  simp only [List.not_mem_nil, false_or] at hacc
  unfold lookupIds at hacc ⊢
  rw [getEntry_map_val]
  cases hget : getEntry ((corpusTransforms corpus).foldl (amfStep false) []) k with
  | none =>
    rw [hget] at hacc
    constructor
    · intro hh
      exact absurd hh (List.not_mem_nil v)
    · rintro ⟨hne, hrel⟩
      exact absurd (hacc.2 hrel) (List.not_mem_nil v)
  | some vs =>
    rw [hget] at hacc
    show v ∈ pySortedIdSet vs ↔ _
    rw [mem_pySortedIdSet]
    constructor
    · rintro ⟨hne, hv⟩
      exact ⟨hne, hacc.1 hv⟩
    · rintro ⟨hne, hrel⟩
      exact ⟨hne, hacc.2 hrel⟩

theorem AccRel_swap (ts : List AMFTransform) (k v : PyStr) :
    AccRel ts k v → AccRel ts v k := by
  rintro ⟨t, ht, hc⟩
  refine ⟨t, ht, ?_⟩
  rcases hc with ⟨h1, h2⟩ | ⟨inv, hinv, hc⟩
  · exact Or.inl ⟨h2, h1⟩
  · refine Or.inr ⟨inv, hinv, ?_⟩
    rcases hc with ⟨h1, h2⟩ | ⟨h1, h2⟩ | ⟨h1, h2⟩
    · exact Or.inl ⟨h2, h1⟩
    · exact Or.inr (Or.inr ⟨h2, h1⟩)
    · exact Or.inr (Or.inl ⟨h2, h1⟩)

theorem AccRel_ne_nil (ts : List AMFTransform) (k v : PyStr)
    (hne : ∀ t ∈ ts, t.transformId ≠ [] ∧
      ∀ inv, t.inverseTransformId = some inv → inv ≠ []) :
    AccRel ts k v → k ≠ [] ∧ v ≠ [] := by
  rintro ⟨t, ht, hc⟩
  have h1 := (hne t ht).1
  have h2 := (hne t ht).2
  rcases hc with ⟨rfl, rfl⟩ | ⟨inv, hinv, hc⟩
  · exact ⟨h1, h1⟩
  · have h3 := h2 inv hinv
    rcases hc with ⟨rfl, rfl⟩ | ⟨rfl, rfl⟩ | ⟨rfl, rfl⟩
    · exact ⟨h3, h3⟩
    · exact ⟨h3, h1⟩
    · exact ⟨h1, h3⟩




/-- C1 (amended): with `include_previous_transform_ids = False` and every
`transformId` / `inverseTransformId` in the corpus non-empty, the generated
component graph is symmetric: `id2 ∈ graph[id1] ↔ id1 ∈ graph[id2]`.  (With
previous ids included, a previous equivalent id is related to its transform
but never receives a key of its own, breaking symmetry.) -/
theorem generate_amf_components_symmetric_without_previous_ids
    (corpus : AMFCorpus)
    (hne : ∀ t ∈ corpusTransforms corpus, t.transformId ≠ [] ∧
      ∀ inv, t.inverseTransformId = some inv → inv ≠ [])
    (id1 id2 : PyStr) :
    id2 ∈ lookupIds (generate_amf_components corpus false) id1 ↔
      id1 ∈ lookupIds (generate_amf_components corpus false) id2 := by
  rw [mem_lookup_generate_false, mem_lookup_generate_false]
  constructor
  · rintro ⟨hv, hrel⟩
    exact ⟨(AccRel_ne_nil _ _ _ hne hrel).1, AccRel_swap _ _ _ hrel⟩
  · rintro ⟨hv, hrel⟩
    exact ⟨(AccRel_ne_nil _ _ _ hne hrel).1, AccRel_swap _ _ _ hrel⟩

/-- C1 (counterexample): with `include_previous_transform_ids = True`, a
previous equivalent id `B` of transform `A` appears in the corpus and in
`graph[A]`, but `A` is not in `graph[B]` — `B` never becomes a key. -/
theorem generate_amf_components_not_symmetric_with_previous_ids :
    appears_in_corpus prevCorpus "A".toList = true ∧
      appears_in_corpus prevCorpus "B".toList = true ∧
      "B".toList ∈ lookupIds (generate_amf_components prevCorpus true) "A".toList ∧
      "A".toList ∉ lookupIds (generate_amf_components prevCorpus true) "B".toList := by
  decide

/-- C1 (witness): the symmetry equivalence applied to a concrete
forward/inverse corpus at the pair of its two ids. -/
theorem generate_amf_components_symmetric_witness :
    "B".toList ∈ lookupIds (generate_amf_components invCorpus false) "A".toList ↔
      "A".toList ∈ lookupIds (generate_amf_components invCorpus false) "B".toList :=
  generate_amf_components_symmetric_without_previous_ids invCorpus
    (by decide) "A".toList "B".toList

/-- C9 (counterexample): a corpus whose only transform id is the empty
string produces a mapping whose single key (the empty string) maps to the
empty list: the emptiness filter runs on the raw accumulated list, before
empty identifier strings are discarded. -/
theorem generate_amf_components_keeps_empty_key :
    generate_amf_components emptyIdCorpus false = [([], [])] := by decide

/-- C9 (witness): the self-membership property applied to a concrete
forward/inverse corpus. -/
theorem generate_amf_components_self_membership_witness :
    "A".toList ∈ ["A".toList, "B".toList] ∧ ["A".toList, "B".toList] ≠ [] :=
  generate_amf_components_self_membership invCorpus false "A".toList
    ["A".toList, "B".toList] (by decide) (by decide)


/-- C7: filtering is monotonic under predicate conjunction.  For every
input (taxonomy or flat list) and predicates `p1`, `p2`, every transform in
`filter(x, [p1, p2])` is also in `filter(x, [p1])`. -/
theorem filter_monotone_under_conjunction
    (x : Taxonomy ⊕ List CTLTransform) (p1 p2 : CTLTransform → Bool)
    (t : CTLTransform) (h : t ∈ filter_ctl_transforms x [p1, p2]) :
    t ∈ filter_ctl_transforms x [p1] := by
  unfold filter_ctl_transforms at h ⊢
  rcases x with tax | ts <;>
    (dsimp only at h ⊢
     rw [List.mem_filter] at h ⊢
     refine ⟨h.1, ?_⟩
     have h2 := h.2
     simp only [List.all_cons, List.all_nil, Bool.and_true, Bool.and_eq_true] at h2 ⊢
     exact h2.1)

/-- C7 (witness): the monotonicity applied to a singleton list with two
always-true predicates. -/
theorem filter_monotone_witness :
    sampleTransform ∈ filter_ctl_transforms (.inr [sampleTransform])
      [fun _ => true] :=
  filter_monotone_under_conjunction (.inr [sampleTransform])
    (fun _ => true) (fun _ => true) sampleTransform (by decide)

theorem pySplitGo_ne_nil (sep : PyStr) :
    ∀ (fuel : Nat) (s acc : PyStr), pySplitGo sep fuel s acc ≠ [] := by
  intro fuel
  induction fuel with
  | zero =>
    intro s acc
    simp [pySplitGo]
  | succ n ih =>
    intro s acc
    cases s with
    | nil => simp [pySplitGo]
    | cons c rest =>
      unfold pySplitGo
      cases stripPre sep (c :: rest) with
      | none => exact ih rest (c :: acc)
      | some r => simp

/-- C8 (counterexample): for the relative directory
`aces-output/aces-look`, the genus is `look`, not the raw remainder
`aces-look`: the code substitutes every path segment, genus segments
included, through the family lookup table. -/
theorem classify_family_genus_substitutes_genus_segments :
    classify_family_genus "/r".toList "/r/aces-output/aces-look".toList =
        ("output".toList, "look".toList) ∧
      "look".toList ≠ "aces-look".toList := by decide

/-- C8 (amended): classification derives the family by substituting the
first relative-path segment through the fixed family table (falling through
to the raw segment), and derives the genus as the `/`-joined remainder with
every remaining segment also substituted through the same table, or the
`undefined` sentinel when there is no remainder. -/
theorem classify_family_genus_formula (root directory : PyStr) :
    classify_family_genus root directory =
      ((getEntry TRANSFORM_FAMILIES_CTL
          ((pySplit (pyReplace directory (root ++ "/".toList) []) "/".toList).headD [])).getD
          ((pySplit (pyReplace directory (root ++ "/".toList) []) "/".toList).headD []),
        if (pySplit (pyReplace directory (root ++ "/".toList) []) "/".toList).tail = [] then
          VALUE_DEFAULT_UNDEFINED
        else pyJoin "/".toList
          ((pySplit (pyReplace directory (root ++ "/".toList) []) "/".toList).tail.map
            (fun part => (getEntry TRANSFORM_FAMILIES_CTL part).getD part))) := by
  unfold classify_family_genus
  dsimp only
  obtain ⟨x, xs, hx⟩ : ∃ x xs,
      pySplit (pyReplace directory (root ++ "/".toList) []) "/".toList = x :: xs := by
    cases h : pySplit (pyReplace directory (root ++ "/".toList) []) "/".toList with
    | nil => exact absurd h (pySplitGo_ne_nil _ _ _ _)
    | cons y ys => exact ⟨y, ys, rfl⟩
  rw [hx]
  simp only [List.map_cons, List.headD_cons, List.tail_cons]
  cases xs with
  | nil => simp
  | cons y ys => simp
